import Mathlib

/-!
Verification of the HTTP request orchestration core of the torn-pages client:
the retry helper, the localStorage-backed cache, the ticket-based rate
limiter, the `httpWrapper` orchestrator, and the endpoint clients
(`fetchStats`, `fetchUserBasic`, `fetchMultipleUsersBasic`).

The TypeScript source is embedded shallowly:
* pure logic becomes Lean functions;
* effectful code (cache reads/writes, invocation counting) becomes explicit
  state passing;
* the rate limiter's event-loop behaviour (queue, `setTimeout` pumps,
  promise settlement) becomes a small-step transition relation on an
  explicit machine state;
* promise rejection becomes `Except`.

Times are modelled as `Int` where the JS code subtracts `Date.now()` values
(cache staleness arithmetic) and as `Nat` event-loop instants for the rate
limiter.
-/

/-- Result shape used by API calls: either data or error
(`httpWrapper.ts`, interface `DataOrError<T>`).  `null` becomes `none`. -/
structure DataOrError (T : Type) where
  data : Option T
  error : Option String
  deriving DecidableEq, Repr

/-- "Exactly one of `data` and `error` is set" — the envelope invariant the
spec states for `DataOrError<T>`. -/
def validEnvelope {T : Type} (e : DataOrError T) : Prop :=
  (e.data ≠ none ∧ e.error = none) ∨ (e.data = none ∧ e.error ≠ none)

instance {T : Type} [DecidableEq T] (e : DataOrError T) :
    Decidable (validEnvelope e) := by
  unfold validEnvelope; infer_instance

/-! ## Retry (`retry.ts`, `withRetry`)

The loop `for (let attempt = 0; attempt <= maxRetries; attempt++)` is
embedded with the number of *remaining* retries as the recursion measure.
The wrapped operation is effectful, so it is modelled as a state transformer
`σ → Except E A × σ`; a rejection is `Except.error`. -/

/-- The body of `withRetry`, generic in the state `σ` threaded through the
wrapped function.  `remaining` counts the retries still allowed
(`maxRetries - attempt`), so `remaining = 0` means `attempt >= maxRetries`. -/
def withRetryS {σ E A : Type} (fn : σ → Except E A × σ)
    (isSuccess? : Option (A → Bool)) : Nat → σ → Except E A × σ
  | remaining, s =>
    match fn s with
    | (Except.ok r, s') =>
      match isSuccess? with
      | some p =>
        if p r then (Except.ok r, s')
        else
          match remaining with
          | rem + 1 => withRetryS fn isSuccess? rem s'
          | 0 => (Except.ok r, s')
      | none => (Except.ok r, s')
    | (Except.error e, s') =>
      match remaining with
      | rem + 1 => withRetryS fn isSuccess? rem s'
      | 0 => (Except.error e, s')

/-- `withRetry(fn, { maxRetries, isSuccess })`.  The wrapped function is
modelled by the outcome of each of its invocations (`fnOut k` is what the
`k`-th invocation settles to); the returned pair is the overall outcome
together with the total number of invocations of `fn`. -/
def withRetry {E A : Type} (fnOut : Nat → Except E A) (maxRetries : Nat)
    (isSuccess? : Option (A → Bool)) : Except E A × Nat :=
  withRetryS (fun n => (fnOut n, n + 1)) isSuccess? maxRetries 0

/-! ## Cache (`cache.ts`, class `Cache<T>`)

`localStorage` holds, under the cache's `storageKey`, either nothing, an
unparseable string, or a JSON-encoded `CacheEntry<T>`; the backend read may
also throw.  The content of that one key is modelled by `StorageCell`.
The body of `get()` up to the `catch` is modelled as an `Except` so that
the swallow-all behaviour of the `catch` clause is explicit. -/

/-- `interface CacheEntry<T> { value: T; timestamp: number }`. -/
structure CacheEntry (T : Type) where
  value : T
  timestamp : Int
  deriving DecidableEq, Repr

/-- The state of the storage backend under one cache key. -/
inductive StorageCell (T : Type) where
  /-- `localStorage.getItem` returns `null` (or a falsy empty string). -/
  | absent
  /-- the stored string does not `JSON.parse` to an entry. -/
  | corrupt
  /-- the backend itself throws on read. -/
  | readThrows
  /-- the stored string parses to `{ value, timestamp }`. -/
  | entry (e : CacheEntry T)
  deriving DecidableEq, Repr

namespace Cache

/-- The `try` body of `Cache.get`; `Except.error` marks a thrown exception
(backend read fault or `JSON.parse` failure). -/
def getBody {T : Type} (maxStalenessMs : Int) (cell : StorageCell T)
    (now : Int) : Except Unit (Option T) :=
  match cell with
  | StorageCell.readThrows => Except.error ()
  | StorageCell.absent => Except.ok none
  | StorageCell.corrupt => Except.error ()
  | StorageCell.entry e =>
    if now - e.timestamp > maxStalenessMs then Except.ok none
    else Except.ok (some e.value)

/-- `Cache.get()`: the `try` body with every exception swallowed to `null`. -/
def get {T : Type} (maxStalenessMs : Int) (cell : StorageCell T)
    (now : Int) : Option T :=
  match getBody maxStalenessMs cell now with
  | Except.ok v => v
  | Except.error _ => none

/-- `Cache.set(value)`: stores `{ value, timestamp: Date.now() }`. -/
def set {T : Type} (v : T) (now : Int) : StorageCell T :=
  StorageCell.entry ⟨v, now⟩

/-- `Cache.getOrLoad(load)`: returns the fresh cached value as a success
envelope, otherwise runs the loader (whose settlement is `load`) and stores
`result.data` when it is non-null.  Returns the loader outcome unchanged
together with the updated storage cell. -/
def getOrLoad {T E : Type} (maxStalenessMs : Int) (cell : StorageCell T)
    (now : Int) (load : Except E (DataOrError T)) :
    Except E (DataOrError T) × StorageCell T :=
  match get maxStalenessMs cell now with
  | some v => (Except.ok ⟨some v, none⟩, cell)
  | none =>
    match load with
    | Except.error e => (Except.error e, cell)
    | Except.ok r =>
      match r.data with
      | some d => (Except.ok r, set d now)
      | none => (Except.ok r, cell)

end Cache

/-! ## HTTP wrapper (`httpWrapper.ts`, `httpWrapper`)

The orchestrator is embedded with explicit state: the cache's storage cell,
the list of values passed to `cache.set`, and invocation counters for the
caller-supplied `run` function and for `rateLimiter.run`.  The limiter's
queueing only delays the thunk (its own guarantees are proved separately on
the event-loop model below); here `rateLimiter.run(thunk)` is modelled as
executing the thunk once and propagating its settlement, which is the
limiter's no-timeout contract.  `times k` is `Date.now()` at the moment the
`k`-th rate-limiter ticket executes its thunk; `runOut k` is the settlement
of the `k`-th invocation of `run`. -/

/-- The orchestrator configuration: an optional cache (with its staleness
bound), and the retry options. -/
structure HttpWrapperCfg (T : Type) where
  hasCache : Bool
  maxStalenessMs : Int
  maxRetries : Nat
  isSuccess? : Option (DataOrError T → Bool)

/-- The effect state threaded through one `httpWrapper` call. -/
structure WrapSt (T : Type) where
  cell : StorageCell T
  writes : List T
  runCalls : Nat
  limiterCalls : Nat
  deriving DecidableEq, Repr

/-- Step 5 of the orchestrator: `await run()`, then
`if (result.data !== null && cache) cache.set(result.data)`. -/
def httpRunStep {T : Type} (cfg : HttpWrapperCfg T)
    (runOut : Nat → Except String (DataOrError T)) (now : Int)
    (st : WrapSt T) : Except String (DataOrError T) × WrapSt T :=
  match runOut st.runCalls, { st with runCalls := st.runCalls + 1 } with
  | Except.error e, st1 => (Except.error e, st1)
  | Except.ok r, st1 =>
    match r.data with
    | some d =>
      if cfg.hasCache = true then
        (Except.ok r, { st1 with cell := Cache.set d now,
                                 writes := st1.writes ++ [d] })
      else (Except.ok r, st1)
    | none => (Except.ok r, st1)

/-- Steps 4–5 of the orchestrator (the thunk handed to the rate limiter):
re-check the cache, then run the request and cache a non-null result. -/
def httpThunk {T : Type} (cfg : HttpWrapperCfg T)
    (runOut : Nat → Except String (DataOrError T)) (now : Int)
    (st : WrapSt T) : Except String (DataOrError T) × WrapSt T :=
  if cfg.hasCache = true then
    match Cache.get cfg.maxStalenessMs st.cell now with
    | some v => (Except.ok ⟨some v, none⟩, st)
    | none => httpRunStep cfg runOut now st
  else httpRunStep cfg runOut now st

/-- `rateLimiter.run(thunk)` inside the orchestrator: counts the ticket and
executes the thunk at that ticket's execution time. -/
def limiterRunCounted {T : Type} (cfg : HttpWrapperCfg T)
    (runOut : Nat → Except String (DataOrError T)) (times : Nat → Int)
    (st : WrapSt T) : Except String (DataOrError T) × WrapSt T :=
  httpThunk cfg runOut (times st.limiterCalls)
    { st with limiterCalls := st.limiterCalls + 1 }

/-- `httpWrapper(options, run)`: pre-check the cache, then run steps 3–5
under `withRetry`. -/
def httpWrapper {T : Type} (cfg : HttpWrapperCfg T)
    (runOut : Nat → Except String (DataOrError T)) (times : Nat → Int)
    (now0 : Int) (st0 : WrapSt T) :
    Except String (DataOrError T) × WrapSt T :=
  if cfg.hasCache = true then
    match Cache.get cfg.maxStalenessMs st0.cell now0 with
    | some v => (Except.ok ⟨some v, none⟩, st0)
    | none =>
      withRetryS (limiterRunCounted cfg runOut times) cfg.isSuccess?
        cfg.maxRetries st0
  else
    withRetryS (limiterRunCounted cfg runOut times) cfg.isSuccess?
      cfg.maxRetries st0

/-- The value the `k`-th invocation of `run` would contribute to the cache:
its `data` field when it resolves, nothing when it rejects. -/
def runDataOf {T : Type} (runOut : Nat → Except String (DataOrError T))
    (k : Nat) : Option T :=
  match runOut k with
  | Except.ok r => r.data
  | Except.error _ => none

/-- A whitespace character for JS `trim` purposes. -/
def isWsChar (c : Char) : Bool :=
  c == ' ' || c == '\t' || c == '\n' || c == '\r' || c == '\x0c' || c == '\x0b'

/-- JS `s.trim()`: strip leading and trailing whitespace. -/
def jsTrim (s : String) : String :=
  String.mk (((s.toList.dropWhile isWsChar).reverse.dropWhile isWsChar).reverse)

/-! ## FFScouter endpoint client (`ffScouter.ts`)

`localStorage` is modelled as a total map from key strings to cells; the
network interaction of one `fetchStats` call is modelled by a
`FetchResponse` value (what `fetch`/`response.json()` produced, or threw).
The stats payload is opaque to the client, so it is a type parameter. -/

/-- `CACHE_TTL_MS = 14 * 24 * 60 * 60 * 1000`. -/
def cacheTtlMs : Int := 14 * 24 * 60 * 60 * 1000

/-- One `localStorage` slot for the FFScouter cache: missing, unparseable,
or a parsed `CachedData { data, timestamp }`. -/
inductive FFCell (S : Type) where
  | absent
  | corrupt
  | entry (data : List S) (timestamp : Int)
  deriving DecidableEq, Repr

/-- The whole `localStorage`, keyed by strings. -/
def FFStore (S : Type) := String → FFCell S

/-- `getCacheKey`: prefixed join of the numerically sorted target ids. -/
def getCacheKey (targetIds : List Int) : String :=
  "ffscouter_cache_" ++ String.intercalate "_"
    ((targetIds.mergeSort (fun a b => decide (a ≤ b))).map toString)

/-- `getCachedData`: returns the cached array if present and not expired;
removes an expired entry; swallows parse errors.  Returns the (possibly
updated) store alongside. -/
def getCachedData {S : Type} (targetIds : List Int) (store : FFStore S)
    (now : Int) : Option (List S) × FFStore S :=
  match store (getCacheKey targetIds) with
  | FFCell.absent => (none, store)
  | FFCell.corrupt => (none, store)
  | FFCell.entry d ts =>
    if now - ts > cacheTtlMs then
      (none, fun k =>
        if k = getCacheKey targetIds then FFCell.absent else store k)
    else (some d, store)

/-- `setCachedData`: stores `{ data, timestamp: Date.now() }` under the key. -/
def setCachedData {S : Type} (targetIds : List Int) (data : List S)
    (store : FFStore S) (now : Int) : FFStore S :=
  fun k => if k = getCacheKey targetIds then FFCell.entry data now else store k

/-- What the network did for one `fetchStats` request. -/
inductive FetchResponse (S : Type) where
  /-- `response.ok` is false. -/
  | httpError (status : Nat)
  /-- 2xx, body parses, but `Array.isArray` fails. -/
  | jsonNonArray
  /-- 2xx with an array body. -/
  | jsonArray (arr : List S)
  /-- `fetch`/`json()` threw an `Error` with this message. -/
  | throwsErr (msg : String)
  /-- something other than an `Error` was thrown. -/
  | throwsNonError
  deriving DecidableEq, Repr

/-- `fetchStats(params)`: validation, cache pre-check, then the network.
Returns the result envelope, the updated store, and whether the network
request was performed. -/
def fetchStats {S : Type} (apiKey : String) (targetIds : List Int)
    (store : FFStore S) (now : Int) (resp : FetchResponse S) :
    DataOrError (List S) × FFStore S × Bool :=
  if jsTrim apiKey = "" then (⟨none, some "API key is required"⟩, store, false)
  else if targetIds = [] then
    (⟨none, some "At least one target ID is required"⟩, store, false)
  else
    match getCachedData targetIds store now with
    | (some cached, store1) => (⟨some cached, none⟩, store1, false)
    | (none, store1) =>
      match resp with
      | FetchResponse.httpError status =>
        (⟨none, some ("HTTP error! status: " ++ toString status)⟩,
          store1, true)
      | FetchResponse.jsonNonArray =>
        (⟨none, some "Invalid response format: expected an array"⟩,
          store1, true)
      | FetchResponse.jsonArray arr =>
        (⟨some arr, none⟩, setCachedData targetIds arr store1 now, true)
      | FetchResponse.throwsErr m =>
        (⟨none, some ("Failed to fetch stats: " ++ m)⟩, store1, true)
      | FetchResponse.throwsNonError =>
        (⟨none, some "Failed to fetch stats: Unknown error"⟩, store1, true)

/-! ## Torn user-basic endpoint client (`tornUserBasic.ts`)

The per-attempt network outcome is a `UserResp`; the parsed success payload
is opaque, so it is a type parameter.  The sliding-window limiter and the
backoff sleeps do not influence the returned envelope and are not part of
the returned value. -/

/-- `a :: as` begins `bs`? (character-level helper for `String.includes`). -/
def leadMatch : List Char → List Char → Bool
  | [], _ => true
  | _ :: _, [] => false
  | a :: as, b :: bs => a == b && leadMatch as bs

/-- `needle` occurs contiguously in the haystack? -/
def containsSeq (needle : List Char) : List Char → Bool
  | [] => leadMatch needle []
  | b :: bs => leadMatch needle (b :: bs) || containsSeq needle bs

/-- JS `s.includes(sub)`. -/
def jsIncludes (s sub : String) : Bool := containsSeq sub.toList s.toList

/-- JS truthiness of a nullable string (`null`/`''` are falsy). -/
def jsTruthyStr : Option String → Bool
  | none => false
  | some s => !(s == "")

/-- JS `v || d` for a nullable string. -/
def jsOrElse (v : Option String) (d : String) : String :=
  match v with
  | some s => if s = "" then d else s
  | none => d

/-- `interface RetryConfig` of `tornUserBasic.ts`. -/
structure RetryConfig where
  maxRetries : Nat
  initialDelayMs : Nat
  maxDelayMs : Nat
  backoffMultiplier : Nat
  deriving DecidableEq, Repr

/-- `shouldRetry(status, error)`: message-based network signatures first,
then the retriable status codes. -/
def shouldRetry (status : Option Nat) (errMsg : Option String) : Bool :=
  (match errMsg with
   | some m =>
     !(m == "") &&
       (jsIncludes m.toLower "fetch" || jsIncludes m.toLower "network" ||
        jsIncludes m.toLower "timeout" ||
        jsIncludes m.toLower "econnrefused" ||
        jsIncludes m.toLower "etimedout")
   | none => false) ||
  (match status with
   | some s => s == 429 || s == 500 || s == 502 || s == 503
   | none => false)

/-- What one attempt of `fetchUserBasic` observed. -/
inductive UserResp (U : Type) where
  /-- `response.ok` is false with this status. -/
  | httpError (status : Nat)
  /-- 2xx whose body is a well-formed Torn error payload. -/
  | tornError (code : Int) (msg : String)
  /-- 2xx with a non-error payload. -/
  | payload (u : U)
  /-- `fetch` itself threw before a response arrived; `isError` is
  `instanceof Error`, `msg` its message. -/
  | fetchThrows (isError : Bool) (msg : String)
  /-- the response was ok (with this status) but `response.json()` threw
  an `Error` with this message. -/
  | jsonThrows (status : Nat) (msg : String)
  deriving DecidableEq, Repr

/-- The retry loop of `fetchUserBasic` (`for attempt in 0..maxRetries`),
with the remaining iteration count as fuel and the mutable `lastError` /
`lastStatus` threaded explicitly. -/
def fetchUserBasicLoop {U : Type} (cfg : RetryConfig)
    (responses : Nat → UserResp U) :
    Nat → Nat → Option String → Option Nat → DataOrError U
  | _, 0, lastError, _ =>
    ⟨none,
      some (jsOrElse lastError "Failed to fetch user basic info after retries")⟩
  | attempt, fuel + 1, _, lastStatus =>
    match responses attempt with
    | UserResp.httpError s =>
      if shouldRetry (some s) none && decide (attempt < cfg.maxRetries) then
        fetchUserBasicLoop cfg responses (attempt + 1) fuel
          (some ("HTTP error! status: " ++ toString s)) (some s)
      else ⟨none, some ("HTTP error! status: " ++ toString s)⟩
    | UserResp.tornError code msg =>
      ⟨none, some ("Torn API Error (" ++ toString code ++ "): " ++ msg)⟩
    | UserResp.payload u => ⟨some u, none⟩
    | UserResp.fetchThrows isError m =>
      if isError then
        if shouldRetry lastStatus (some m) && decide (attempt < cfg.maxRetries)
        then
          fetchUserBasicLoop cfg responses (attempt + 1) fuel
            (some ("Failed to fetch user basic info: " ++ m)) lastStatus
        else ⟨none, some ("Failed to fetch user basic info: " ++ m)⟩
      else
        if decide (cfg.maxRetries ≤ attempt) || !shouldRetry lastStatus none
        then ⟨none, some "Failed to fetch user basic info: Unknown error"⟩
        else
          fetchUserBasicLoop cfg responses (attempt + 1) fuel
            (some "Failed to fetch user basic info: Unknown error") lastStatus
    | UserResp.jsonThrows s m =>
      if shouldRetry (some s) (some m) && decide (attempt < cfg.maxRetries)
      then
        fetchUserBasicLoop cfg responses (attempt + 1) fuel
          (some ("Failed to fetch user basic info: " ++ m)) (some s)
      else ⟨none, some ("Failed to fetch user basic info: " ++ m)⟩

/-- `fetchUserBasic(params, retryConfig)`: parameter validation, then the
retry loop (`maxRetries + 1` iterations available). -/
def fetchUserBasic {U : Type} (apiKey : String) (targetId : Int)
    (responses : Nat → UserResp U) (cfg : RetryConfig) : DataOrError U :=
  if jsTrim apiKey = "" then ⟨none, some "API key is required"⟩
  else if targetId = 0 then ⟨none, some "Target user ID is required"⟩
  else fetchUserBasicLoop cfg responses 0 (cfg.maxRetries + 1) none none

/-- `fetchMultipleUsersBasic`: sequential per-target fetches, collecting
successes and per-target error strings; the result's `data` is the
(possibly empty) array of successes, its `error` the joined messages. -/
def fetchMultipleUsersBasic {U : Type} (apiKey : String)
    (targetIds : List Int) (responses : Int → Nat → UserResp U)
    (cfg : RetryConfig) : DataOrError (List U) :=
  let acc := targetIds.foldl (fun (acc : List U × List String) tid =>
    let r := fetchUserBasic apiKey tid (responses tid) cfg
    if jsTruthyStr r.error then
      (acc.1, acc.2 ++ ["User " ++ toString tid ++ ": " ++ r.error.getD ""])
    else
      match r.data with
      | some d => (acc.1 ++ [d], acc.2)
      | none => acc) ([], [])
  if 0 < acc.2.length ∧ acc.1.length = 0 then
    ⟨some [], some (String.intercalate "; " acc.2)⟩
  else
    ⟨some acc.1,
      if 0 < acc.2.length then some (String.intercalate "; " acc.2) else none⟩

/-! ## Rate limiter (`rateLimiter.ts`, class `RateLimiter`)

The limiter lives on the JS event loop, so it is embedded as a small-step
machine.  A machine state carries the limiter's own fields (`queue`,
`cooldownUntil`, `isProcessing`), plus the ambient event-loop state: the
clock, the pending `setTimeout` callbacks (all of them run `processQueue`,
so a fire time suffices), the currently running thunk(s) with their
settlement times, and a trace of observable events.  Steps are: a `run()`
call (push + synchronous `processQueue`), a timer firing, and the
settlement of a running thunk (its `finally` handler).  Timers and
settlements may be interleaved in any time-respecting order, which
includes every order the real event loop can produce. -/

/-- A limiter configuration together with the behaviour of the submitted
jobs: job `j` (in submission order) settles its own promise `dur j`
milliseconds after invocation, and may carry a per-call timeout. -/
structure RLCfg where
  cooldownMs : Nat
  defaultTimeoutMs : Option Nat
  dur : Nat → Nat
  callTimeout : Nat → Option Nat

/-- `options?.timeoutMs ?? this.defaultTimeoutMs`. -/
def effTimeout (c : RLCfg) (j : Nat) : Option Nat :=
  match c.callTimeout j with
  | some tm => some tm
  | none => c.defaultTimeoutMs

/-- Delay from invocation of job `j` to settlement of the *thunk* handed to
the queue: with a timeout the thunk settles at the race of the timeout and
the wrapped promise (`runWithTimeout`), without one it settles with the
wrapped promise itself. -/
def thunkDelay (c : RLCfg) (j : Nat) : Nat :=
  match effTimeout c j with
  | none => c.dur j
  | some tm => min (c.dur j) tm

/-- Observable events: `run()` called for job `j` at time `t`; job `j`'s
wrapped function invoked at `t`; job `j`'s thunk settled at `t`. -/
inductive RLEvent where
  | submit (j t : Nat)
  | start (j t : Nat)
  | finish (j t : Nat)
  deriving DecidableEq, Repr

/-- The machine state (limiter fields and ambient event-loop state). -/
structure RLState where
  now : Nat
  queue : List Nat
  cooldownUntil : Nat
  isProcessing : Bool
  /-- running thunks with their settlement times (a list, so that mutual
  exclusion is a provable property rather than a modelling assumption). -/
  running : List (Nat × Nat)
  /-- fire times of pending `setTimeout(() => processQueue(), ...)`. -/
  timers : List Nat
  nextJob : Nat
  trace : List RLEvent
  deriving DecidableEq, Repr

/-- The `(job, start time)` pairs of the trace, oldest first. -/
def startsOf (tr : List RLEvent) : List (Nat × Nat) :=
  tr.filterMap fun e =>
    match e with
    | RLEvent.start j t => some (j, t)
    | _ => none

/-- The `(job, settlement time)` pairs of the trace, oldest first. -/
def finishesOf (tr : List RLEvent) : List (Nat × Nat) :=
  tr.filterMap fun e =>
    match e with
    | RLEvent.finish j t => some (j, t)
    | _ => none

/-- The `(job, submission time)` pairs of the trace, oldest first. -/
def submitsOf (tr : List RLEvent) : List (Nat × Nat) :=
  tr.filterMap fun e =>
    match e with
    | RLEvent.submit j t => some (j, t)
    | _ => none

/-- `processQueue()`: return on empty queue or while processing; if inside
the cooldown window, schedule a re-check at `cooldownUntil`; otherwise
shift the head ticket and invoke it (its thunk will settle `thunkDelay`
later). -/
def processQueue (c : RLCfg) (s : RLState) : RLState :=
  match s.queue with
  | [] => s
  | j :: rest =>
    if s.isProcessing then s
    else if s.now < s.cooldownUntil then
      { s with timers := s.timers ++ [s.cooldownUntil] }
    else
      { s with isProcessing := true,
               queue := rest,
               running := s.running ++ [(j, s.now + thunkDelay c j)],
               trace := s.trace ++ [RLEvent.start j s.now] }

/-- The state at construction of the limiter. -/
def rlInit : RLState := ⟨0, [], 0, false, [], [], 0, []⟩

/-- One event-loop step. -/
inductive RLStep (c : RLCfg) : RLState → RLState → Prop where
  /-- `run(fn)`: push the thunk, then `processQueue()` synchronously. -/
  | submit (s : RLState) (t : Nat) (ht : s.now ≤ t) :
      RLStep c s (processQueue c
        { s with now := t,
                 queue := s.queue ++ [s.nextJob],
                 nextJob := s.nextJob + 1,
                 trace := s.trace ++ [RLEvent.submit s.nextJob t] })
  /-- a scheduled `processQueue` timer fires at its fire time. -/
  | fireTimer (s : RLState) (tf : Nat) (hmem : tf ∈ s.timers)
      (ht : s.now ≤ tf) :
      RLStep c s (processQueue c
        { s with now := tf, timers := s.timers.erase tf })
  /-- a running thunk settles: its `finally` resets the cooldown clock,
  clears `isProcessing` and schedules the pump after `cooldownMs`. -/
  | settle (s : RLState) (j tf : Nat) (hmem : (j, tf) ∈ s.running)
      (ht : s.now ≤ tf) :
      RLStep c s
        { s with now := tf,
                 running := s.running.erase (j, tf),
                 cooldownUntil := tf + c.cooldownMs,
                 isProcessing := false,
                 timers := s.timers ++ [tf + c.cooldownMs],
                 trace := s.trace ++ [RLEvent.finish j tf] }

/-- States one limiter instance can reach from construction. -/
inductive Reachable (c : RLCfg) : RLState → Prop where
  | init : Reachable c rlInit
  | step {s s' : RLState} : Reachable c s → RLStep c s s' → Reachable c s'

/-- Execution spacing between two starts: the earlier thunk settles and a
full cooldown elapses before the later starts. -/
def gapRel (c : RLCfg) (p q : Nat × Nat) : Prop :=
  p.2 + thunkDelay c p.1 + c.cooldownMs ≤ q.2

/-- The machine invariant tying the limiter fields to the trace. -/
structure RLInv (c : RLCfg) (s : RLState) : Prop where
  subs_eq : (submitsOf s.trace).map Prod.fst = List.range s.nextJob
  starts_queue :
    (startsOf s.trace).map Prod.fst ++ s.queue = List.range s.nextJob
  fin_eq : finishesOf s.trace =
    ((startsOf s.trace).take (finishesOf s.trace).length).map
      (fun p => (p.1, p.2 + thunkDelay c p.1))
  running_eq : s.running =
    ((startsOf s.trace).drop (finishesOf s.trace).length).map
      (fun p => (p.1, p.2 + thunkDelay c p.1))
  run_le : (startsOf s.trace).length ≤ (finishesOf s.trace).length + 1
  proc_iff : s.isProcessing =
    decide ((finishesOf s.trace).length < (startsOf s.trace).length)
  cool_eq : s.cooldownUntil =
    (match (finishesOf s.trace).getLast? with
     | none => 0
     | some p => p.2 + c.cooldownMs)
  gaps : List.Chain' (gapRel c) (startsOf s.trace)

/-- The spec's C1 claim taken literally: on every limiter instance, with or
without timeouts, the execution intervals of any two jobs — from invocation
to the settlement of the promise the wrapped function *itself* returned,
i.e. `[start, start + dur)` — never overlap. -/
def ownIntervalsNeverOverlap : Prop :=
  ∀ (c : RLCfg) (s : RLState), Reachable c s →
    ∀ i k, i < (startsOf s.trace).length → k < (startsOf s.trace).length →
      i ≠ k →
      (((startsOf s.trace).getD i (0, 0)).2 +
          c.dur (((startsOf s.trace).getD i (0, 0)).1) ≤
        ((startsOf s.trace).getD k (0, 0)).2 ∨
      ((startsOf s.trace).getD k (0, 0)).2 +
          c.dur (((startsOf s.trace).getD k (0, 0)).1) ≤
        ((startsOf s.trace).getD i (0, 0)).2)

/-- Example configuration exercising the per-instance timeout: cooldown
250ms, instance timeout 100ms, job 0 takes 1000ms, job 1 takes 50ms. -/
def rlCfgEx : RLCfg :=
  ⟨250, some 100, fun j => if j = 0 then 1000 else 50, fun _ => none⟩

/-- After `run(f0); run(f1)` at t=0: f0 invoked at 0, its thunk timed out
at 100, pump fired at 350, f1 invoked at 350 while f0's own promise is
still pending (it settles at 1000). -/
def rlStEx : RLState :=
  ⟨350, [], 350, true, [(1, 400)], [], 2,
    [RLEvent.submit 0 0, RLEvent.start 0 0, RLEvent.submit 1 0,
     RLEvent.finish 0 100, RLEvent.start 1 350]⟩

/-! ## Theorems

Everything below is a statement about the definitions above; no further
definitions of the embedded program appear past this point (helper
predicates used only to phrase theorems aside). -/

theorem withRetryS_counter_allError {E A : Type} (fnOut : Nat → Except E A)
    (isSuccess? : Option (A → Bool))
    (h : ∀ k, ∃ e, fnOut k = Except.error e) :
    ∀ rem n, withRetryS (fun m => (fnOut m, m + 1)) isSuccess? rem n =
      (fnOut (n + rem), n + rem + 1) := by
  intro rem
  induction rem with
  | zero =>
    intro n
    obtain ⟨e, he⟩ := h n
    rw [withRetryS.eq_def]
    simp [he]
  | succ rem ih =>
    intro n
    obtain ⟨e, he⟩ := h n
    rw [withRetryS.eq_def]
    simp only [he]
    rw [ih (n + 1)]
    ring_nf

theorem withRetryS_counter_allSoftFail {E A : Type} (fnOut : Nat → Except E A)
    (p : A → Bool)
    (h : ∀ k, ∃ v, fnOut k = Except.ok v ∧ p v = false) :
    ∀ rem n, withRetryS (fun m => (fnOut m, m + 1)) (some p) rem n =
      (fnOut (n + rem), n + rem + 1) := by
  intro rem
  induction rem with
  | zero =>
    intro n
    obtain ⟨v, hv, hp⟩ := h n
    rw [withRetryS.eq_def]
    simp [hv, hp]
  | succ rem ih =>
    intro n
    obtain ⟨v, hv, hp⟩ := h n
    rw [withRetryS.eq_def]
    simp only [hv, hp, Bool.false_eq_true, if_false]
    rw [ih (n + 1)]
    ring_nf

/-- C4: if `fn` rejects on every invocation, `withRetry` invokes `fn`
exactly `maxRetries + 1` times and rejects with the error thrown by the
final invocation. -/
theorem withRetry_exhaustion_throwing {E A : Type} (fnOut : Nat → Except E A)
    (maxRetries : Nat) (h : ∀ k, ∃ e, fnOut k = Except.error e) :
    withRetry fnOut maxRetries none = (fnOut maxRetries, maxRetries + 1) ∧
    ∃ e, (withRetry fnOut maxRetries none).1 = Except.error e := by
  have hmain := withRetryS_counter_allError fnOut none h maxRetries 0
  simp only [Nat.zero_add] at hmain
  refine ⟨hmain, ?_⟩
  obtain ⟨e, he⟩ := h maxRetries
  exact ⟨e, by rw [withRetry, hmain, he]⟩

theorem withRetry_exhaustion_throwing_witness :
    (∀ k, ∃ e, (fun (_ : Nat) => (Except.error "boom" : Except String Nat)) k
        = Except.error e) ∧
    withRetry (fun _ => (Except.error "boom" : Except String Nat)) 2 none =
      (Except.error "boom", 3) :=
  ⟨fun _ => ⟨"boom", rfl⟩,
   (withRetry_exhaustion_throwing (fun _ => Except.error "boom") 2
      (fun _ => ⟨"boom", rfl⟩)).1⟩

/-- C5: with a supplied `isSuccess` predicate, if `fn` always resolves with
a value failing the predicate, `withRetry` invokes `fn` exactly
`maxRetries + 1` times and *resolves* with the value of the final
invocation (no rethrow at exhaustion of soft failures). -/
theorem withRetry_exhaustion_softFail {E A : Type} (fnOut : Nat → Except E A)
    (p : A → Bool) (maxRetries : Nat)
    (h : ∀ k, ∃ v, fnOut k = Except.ok v ∧ p v = false) :
    withRetry fnOut maxRetries (some p) = (fnOut maxRetries, maxRetries + 1) ∧
    ∃ v, (withRetry fnOut maxRetries (some p)).1 = Except.ok v := by
  have hmain := withRetryS_counter_allSoftFail fnOut p h maxRetries 0
  simp only [Nat.zero_add] at hmain
  refine ⟨hmain, ?_⟩
  obtain ⟨v, hv, _⟩ := h maxRetries
  exact ⟨v, by rw [withRetry, hmain, hv]⟩

theorem withRetry_exhaustion_softFail_witness :
    (∀ k, ∃ v, (fun (_ : Nat) =>
        (Except.ok (⟨none, some "err"⟩ : DataOrError Nat) :
          Except String (DataOrError Nat))) k = Except.ok v ∧
        (fun r => (r : DataOrError Nat).error.isNone) v = false) ∧
    withRetry (fun _ =>
        (Except.ok (⟨none, some "err"⟩ : DataOrError Nat) :
          Except String (DataOrError Nat))) 2
      (some fun r => r.error.isNone) =
      (Except.ok ⟨none, some "err"⟩, 3) :=
  ⟨fun _ => ⟨⟨none, some "err"⟩, rfl, rfl⟩,
   (withRetry_exhaustion_softFail
      (fun _ => Except.ok (⟨none, some "err"⟩ : DataOrError Nat))
      (fun r => r.error.isNone) 2
      (fun _ => ⟨⟨none, some "err"⟩, rfl, rfl⟩)).1⟩

/-- C9: `Cache.get` never throws — exceptions of the body are swallowed to a
miss — and it returns a value exactly when the stored string parses to an
entry whose age `now - timestamp` is at most `maxStalenessMs`; in every
other case (missing, corrupt, stale, backend read fault) it returns `none`. -/
theorem cache_get_total_and_fresh {T : Type} (maxStalenessMs : Int)
    (cell : StorageCell T) (now : Int) :
    (∀ v, Cache.get maxStalenessMs cell now = some v ↔
      ∃ ts, cell = StorageCell.entry ⟨v, ts⟩ ∧ now - ts ≤ maxStalenessMs) ∧
    (∀ err, Cache.getBody maxStalenessMs cell now = Except.error err →
      Cache.get maxStalenessMs cell now = none) := by
  constructor
  · intro v
    constructor
    · intro h
      cases cell with
      | absent => simp [Cache.get, Cache.getBody] at h
      | corrupt => simp [Cache.get, Cache.getBody] at h
      | readThrows => simp [Cache.get, Cache.getBody] at h
      | entry e =>
        simp only [Cache.get, Cache.getBody] at h
        by_cases hst : now - e.timestamp > maxStalenessMs
        · simp [hst] at h
        · simp [hst] at h
          exact ⟨e.timestamp, by cases e; simp_all, by omega⟩
    · rintro ⟨ts, rfl, hts⟩
      simp only [Cache.get, Cache.getBody]
      rw [if_neg (by omega)]
  · intro err herr
    simp only [Cache.get, herr]

theorem cache_get_total_and_fresh_witness :
    Cache.get 1000 (StorageCell.entry ⟨(7 : Nat), 0⟩) 500 = some 7 ∧
    Cache.get 1000 (StorageCell.corrupt : StorageCell Nat) 500 = none :=
  ⟨((cache_get_total_and_fresh 1000 (StorageCell.entry ⟨(7 : Nat), 0⟩) 500).1
      7).mpr ⟨0, rfl, by decide⟩,
   (cache_get_total_and_fresh 1000 (StorageCell.corrupt : StorageCell Nat)
      500).2 () rfl⟩

/-- C6: when the configured cache holds a fresh entry at the start of the
call, the wrapper returns the cached value as a success envelope at once:
no rate-limiter ticket is consumed, `run` is never invoked, and nothing is
written. -/
theorem httpWrapper_cache_short_circuit {T : Type} (cfg : HttpWrapperCfg T)
    (runOut : Nat → Except String (DataOrError T)) (times : Nat → Int)
    (now0 : Int) (st0 : WrapSt T) (v : T) (ts : Int)
    (hc : cfg.hasCache = true) (hcell : st0.cell = StorageCell.entry ⟨v, ts⟩)
    (hfresh : now0 - ts ≤ cfg.maxStalenessMs) :
    httpWrapper cfg runOut times now0 st0 = (Except.ok ⟨some v, none⟩, st0) ∧
    (httpWrapper cfg runOut times now0 st0).2.limiterCalls =
      st0.limiterCalls ∧
    (httpWrapper cfg runOut times now0 st0).2.runCalls = st0.runCalls ∧
    (httpWrapper cfg runOut times now0 st0).2.writes = st0.writes := by
  have hget : Cache.get cfg.maxStalenessMs st0.cell now0 = some v := by
    rw [hcell]
    simp only [Cache.get, Cache.getBody]
    rw [if_neg (by omega)]
  have hmain : httpWrapper cfg runOut times now0 st0 =
      (Except.ok ⟨some v, none⟩, st0) := by
    simp only [httpWrapper, hc, if_true, hget]
  exact ⟨hmain, by rw [hmain], by rw [hmain], by rw [hmain]⟩

theorem httpWrapper_cache_short_circuit_witness :
    httpWrapper (T := Nat) ⟨true, 1000, 2, none⟩
        (fun _ => Except.error "net") (fun _ => 0) 100
        ⟨StorageCell.entry ⟨5, 0⟩, [], 0, 0⟩ =
      (Except.ok ⟨some 5, none⟩, ⟨StorageCell.entry ⟨5, 0⟩, [], 0, 0⟩) :=
  (httpWrapper_cache_short_circuit ⟨true, 1000, 2, none⟩
    (fun _ => Except.error "net") (fun _ => 0) 100
    ⟨StorageCell.entry ⟨5, 0⟩, [], 0, 0⟩ 5 0 rfl rfl (by decide)).1

theorem limiterRunCounted_effect {T : Type} (cfg : HttpWrapperCfg T)
    (runOut : Nat → Except String (DataOrError T)) (times : Nat → Int)
    (hc : cfg.hasCache = true) (st : WrapSt T) :
    ∃ n, (limiterRunCounted cfg runOut times st).2.runCalls =
        st.runCalls + n ∧
      (limiterRunCounted cfg runOut times st).2.writes =
        st.writes ++ (List.range' st.runCalls n).filterMap (runDataOf runOut) ∧
      ((List.range' st.runCalls n).filterMap (runDataOf runOut) = [] →
        (limiterRunCounted cfg runOut times st).2.cell = st.cell) := by
  simp only [limiterRunCounted, httpThunk, hc, if_true]
  cases hget : Cache.get cfg.maxStalenessMs st.cell (times st.limiterCalls)
  case some v =>
    exact ⟨0, by simp⟩
  case none =>
    simp only [httpRunStep]
    cases hrun : runOut st.runCalls
    case error e =>
      refine ⟨1, by simp, ?_, by simp⟩
      simp [runDataOf, hrun, List.filterMap_cons]
    case ok r =>
      cases hdata : r.data
      case none =>
        simp only [hdata]
        refine ⟨1, by simp, ?_, by simp⟩
        simp [runDataOf, hrun, hdata, List.filterMap_cons]
      case some d =>
        simp only [hdata, hc, if_true]
        refine ⟨1, by simp, ?_, ?_⟩
        · simp [runDataOf, hrun, hdata, List.filterMap_cons]
        · intro habs
          simp [runDataOf, hrun, hdata, List.filterMap_cons] at habs

theorem withRetryS_err_zero {σ E A : Type} (fn : σ → Except E A × σ)
    (isS : Option (A → Bool)) {s s' : σ} {e : E}
    (hf : fn s = (Except.error e, s')) :
    withRetryS fn isS 0 s = (Except.error e, s') := by
  rw [withRetryS.eq_def]; simp [hf]

theorem withRetryS_err_succ {σ E A : Type} (fn : σ → Except E A × σ)
    (isS : Option (A → Bool)) {s s' : σ} {e : E} (rem : Nat)
    (hf : fn s = (Except.error e, s')) :
    withRetryS fn isS (rem + 1) s = withRetryS fn isS rem s' := by
  rw [withRetryS.eq_def]; simp [hf]

theorem withRetryS_ok_none {σ E A : Type} (fn : σ → Except E A × σ)
    {s s' : σ} {r : A} (rem : Nat) (hf : fn s = (Except.ok r, s')) :
    withRetryS fn none rem s = (Except.ok r, s') := by
  rw [withRetryS.eq_def]; simp [hf]

theorem withRetryS_ok_pass {σ E A : Type} (fn : σ → Except E A × σ)
    {p : A → Bool} {s s' : σ} {r : A} (rem : Nat)
    (hf : fn s = (Except.ok r, s')) (hp : p r = true) :
    withRetryS fn (some p) rem s = (Except.ok r, s') := by
  rw [withRetryS.eq_def]; simp [hf, hp]

theorem withRetryS_ok_fail_zero {σ E A : Type} (fn : σ → Except E A × σ)
    {p : A → Bool} {s s' : σ} {r : A}
    (hf : fn s = (Except.ok r, s')) (hp : p r = false) :
    withRetryS fn (some p) 0 s = (Except.ok r, s') := by
  rw [withRetryS.eq_def]; simp [hf, hp]

theorem withRetryS_ok_fail_succ {σ E A : Type} (fn : σ → Except E A × σ)
    {p : A → Bool} {s s' : σ} {r : A} (rem : Nat)
    (hf : fn s = (Except.ok r, s')) (hp : p r = false) :
    withRetryS fn (some p) (rem + 1) s = withRetryS fn (some p) rem s' := by
  rw [withRetryS.eq_def]; simp [hf, hp]


theorem withRetryS_wrap_effect {T : Type} (cfg : HttpWrapperCfg T)
    (runOut : Nat → Except String (DataOrError T)) (times : Nat → Int)
    (hc : cfg.hasCache = true) :
    ∀ (rem : Nat) (st : WrapSt T),
      ∃ n,
        (withRetryS (limiterRunCounted cfg runOut times) cfg.isSuccess?
            rem st).2.runCalls = st.runCalls + n ∧
        (withRetryS (limiterRunCounted cfg runOut times) cfg.isSuccess?
            rem st).2.writes = st.writes ++
          (List.range' st.runCalls n).filterMap (runDataOf runOut) ∧
        ((List.range' st.runCalls n).filterMap (runDataOf runOut) = [] →
          (withRetryS (limiterRunCounted cfg runOut times) cfg.isSuccess?
              rem st).2.cell = st.cell) := by
  intro rem
  induction rem with
  | zero =>
    intro st
    obtain ⟨n1, h1, h2, h3⟩ := limiterRunCounted_effect cfg runOut times hc st
    rcases hf : limiterRunCounted cfg runOut times st with ⟨res, st1⟩
    rw [hf] at h1 h2 h3
    dsimp only at h1 h2 h3
    cases res with
    | error e =>
      rw [withRetryS_err_zero _ _ hf]
      exact ⟨n1, h1, h2, h3⟩
    | ok r =>
      cases hS : cfg.isSuccess? with
      | none =>
        rw [withRetryS_ok_none _ _ hf]
        exact ⟨n1, h1, h2, h3⟩
      | some p =>
        by_cases hp : p r
        · rw [withRetryS_ok_pass _ _ hf hp]
          exact ⟨n1, h1, h2, h3⟩
        · rw [withRetryS_ok_fail_zero _ hf (by simpa using hp)]
          exact ⟨n1, h1, h2, h3⟩
  | succ rem ih =>
    intro st
    obtain ⟨n1, h1, h2, h3⟩ := limiterRunCounted_effect cfg runOut times hc st
    rcases hf : limiterRunCounted cfg runOut times st with ⟨res, st1⟩
    rw [hf] at h1 h2 h3
    dsimp only at h1 h2 h3
    obtain ⟨n2, g1, g2, g3⟩ := ih st1
    have combine :
        ∃ n,
          (withRetryS (limiterRunCounted cfg runOut times) cfg.isSuccess?
              rem st1).2.runCalls = st.runCalls + n ∧
          (withRetryS (limiterRunCounted cfg runOut times) cfg.isSuccess?
              rem st1).2.writes = st.writes ++
            (List.range' st.runCalls n).filterMap (runDataOf runOut) ∧
          ((List.range' st.runCalls n).filterMap (runDataOf runOut) = [] →
            (withRetryS (limiterRunCounted cfg runOut times) cfg.isSuccess?
                rem st1).2.cell = st.cell) := by
      refine ⟨n2 + n1, ?_, ?_, ?_⟩
      · rw [g1, h1]; omega
      · rw [g2, h2, h1, List.append_assoc, ← List.filterMap_append,
          List.range'_append_1]
      · intro hnil
        rw [← List.range'_append_1, List.filterMap_append,
          List.append_eq_nil] at hnil
        have hcell2 : (withRetryS (limiterRunCounted cfg runOut times)
            cfg.isSuccess? rem st1).2.cell = st1.cell := by
          refine g3 ?_
          rw [h1]
          exact hnil.2
        rw [hcell2]
        exact h3 hnil.1
    cases res with
    | error e =>
      rw [withRetryS_err_succ _ _ _ hf]
      exact combine
    | ok r =>
      cases hS : cfg.isSuccess? with
      | none =>
        rw [withRetryS_ok_none _ _ hf]
        exact ⟨n1, h1, h2, h3⟩
      | some p =>
        rw [hS] at combine
        by_cases hp : p r
        · rw [withRetryS_ok_pass _ _ hf hp]
          exact ⟨n1, h1, h2, h3⟩
        · rw [withRetryS_ok_fail_succ _ _ hf (by simpa using hp)]
          exact combine

/-- C7: with a configured cache, `cache.set` is invoked exactly once per
awaited `run()` result with non-null `data`, and with exactly that data;
an error envelope or a rejection of `run` writes nothing, and if nothing
was written the stored state is unchanged by the whole call. -/
theorem httpWrapper_write_iff_data {T : Type} (cfg : HttpWrapperCfg T)
    (runOut : Nat → Except String (DataOrError T)) (times : Nat → Int)
    (now0 : Int) (cell : StorageCell T) (hc : cfg.hasCache = true) :
    (httpWrapper cfg runOut times now0 ⟨cell, [], 0, 0⟩).2.writes =
      (List.range
        (httpWrapper cfg runOut times now0 ⟨cell, [], 0, 0⟩).2.runCalls
        ).filterMap (runDataOf runOut) ∧
    ((httpWrapper cfg runOut times now0 ⟨cell, [], 0, 0⟩).2.writes = [] →
      (httpWrapper cfg runOut times now0 ⟨cell, [], 0, 0⟩).2.cell = cell) := by
  simp only [httpWrapper, hc, if_true]
  cases hget : Cache.get cfg.maxStalenessMs cell now0 with
  | some v => exact ⟨by simp, by simp⟩
  | none =>
    obtain ⟨n, h1, h2, h3⟩ :=
      withRetryS_wrap_effect cfg runOut times hc cfg.maxRetries
        ⟨cell, [], 0, 0⟩
    dsimp only at h1 h2 h3
    rw [Nat.zero_add] at h1
    rw [h1, h2, List.range_eq_range']
    simp only [List.nil_append]
    exact ⟨by simp, h3⟩

theorem httpWrapper_write_iff_data_witness :
    (httpWrapper (T := Nat) ⟨true, 1000, 1, some fun r => r.error.isNone⟩
        (fun k => if k = 0 then Except.ok ⟨none, some "bad"⟩
                  else Except.ok ⟨some 7, none⟩)
        (fun _ => 0) 0 ⟨StorageCell.absent, [], 0, 0⟩).2.writes =
      (List.range
        (httpWrapper (T := Nat) ⟨true, 1000, 1, some fun r => r.error.isNone⟩
          (fun k => if k = 0 then Except.ok ⟨none, some "bad"⟩
                    else Except.ok ⟨some 7, none⟩)
          (fun _ => 0) 0 ⟨StorageCell.absent, [], 0, 0⟩).2.runCalls
        ).filterMap (runDataOf
          (fun k => if k = 0 then Except.ok ⟨none, some "bad"⟩
                    else Except.ok ⟨some 7, none⟩)) :=
  (httpWrapper_write_iff_data ⟨true, 1000, 1, some fun r => r.error.isNone⟩
    (fun k => if k = 0 then Except.ok ⟨none, some "bad"⟩
              else Except.ok ⟨some 7, none⟩)
    (fun _ => 0) 0 StorageCell.absent rfl).1

theorem withRetryS_ok_valid {σ E A : Type} (fn : σ → Except E A × σ)
    (isS : Option (A → Bool)) (P : A → Prop)
    (hfn : ∀ s r, (fn s).1 = Except.ok r → P r) :
    ∀ rem s r, (withRetryS fn isS rem s).1 = Except.ok r → P r := by
  intro rem
  induction rem with
  | zero =>
    intro s r h
    rcases hf : fn s with ⟨res, s1⟩
    cases res with
    | error e =>
      rw [withRetryS_err_zero _ _ hf] at h
      simp at h
    | ok r0 =>
      have hr0 : P r0 := hfn s r0 (by rw [hf])
      cases isS with
      | none =>
        rw [withRetryS_ok_none _ _ hf] at h
        simp at h
        rwa [← h]
      | some p =>
        by_cases hp : p r0
        · rw [withRetryS_ok_pass _ _ hf hp] at h
          simp at h
          rwa [← h]
        · rw [withRetryS_ok_fail_zero _ hf (by simpa using hp)] at h
          simp at h
          rwa [← h]
  | succ rem ih =>
    intro s r h
    rcases hf : fn s with ⟨res, s1⟩
    cases res with
    | error e =>
      rw [withRetryS_err_succ _ _ _ hf] at h
      exact ih s1 r h
    | ok r0 =>
      have hr0 : P r0 := hfn s r0 (by rw [hf])
      cases isS with
      | none =>
        rw [withRetryS_ok_none _ _ hf] at h
        simp at h
        rwa [← h]
      | some p =>
        by_cases hp : p r0
        · rw [withRetryS_ok_pass _ _ hf hp] at h
          simp at h
          rwa [← h]
        · rw [withRetryS_ok_fail_succ _ _ hf (by simpa using hp)] at h
          exact ih s1 r h

theorem fetchUserBasicLoop_valid {U : Type} (cfg : RetryConfig)
    (responses : Nat → UserResp U) :
    ∀ fuel attempt le ls,
      validEnvelope (fetchUserBasicLoop cfg responses attempt fuel le ls) := by
  intro fuel
  induction fuel with
  | zero =>
    intro attempt le ls
    simp [fetchUserBasicLoop, validEnvelope]
  | succ fuel ih =>
    intro attempt le ls
    simp only [fetchUserBasicLoop]
    cases hr : responses attempt <;> dsimp only <;>
      first
        | (split_ifs <;> first | exact ih _ _ _ | simp [validEnvelope])
        | simp [validEnvelope]

theorem httpRunStep_ok_valid {T : Type} (cfg : HttpWrapperCfg T)
    (runOut : Nat → Except String (DataOrError T))
    (hrun : ∀ k r, runOut k = Except.ok r → validEnvelope r) :
    ∀ now st r, (httpRunStep cfg runOut now st).1 = Except.ok r →
      validEnvelope r := by
  intro now st r h
  simp only [httpRunStep] at h
  cases hr : runOut st.runCalls with
  | error e =>
    simp only [hr] at h
    simp at h
  | ok r0 =>
    simp only [hr] at h
    cases hd : r0.data with
    | none =>
      simp only [hd] at h
      have h' : r0 = r := by simpa using h
      rw [← h']
      exact hrun st.runCalls r0 hr
    | some d =>
      simp only [hd] at h
      by_cases hc : cfg.hasCache = true
      · simp only [hc, if_true] at h
        have h' : r0 = r := by simpa using h
        rw [← h']
        exact hrun st.runCalls r0 hr
      · simp only [hc, if_false] at h
        have h' : r0 = r := by simpa using h
        rw [← h']
        exact hrun st.runCalls r0 hr

/-- C8 (amended): every envelope returned by `httpWrapper` (when `run` only
resolves to valid envelopes), by `Cache.getOrLoad` (when the loader only
resolves to valid envelopes), by `fetchStats` and by `fetchUserBasic` has
exactly one of `data`/`error` non-null; `fetchMultipleUsersBasic`, however,
always returns a non-null `data` array (so when some per-target fetch
failed its envelope carries both fields non-null, violating the claimed
invariant — see the counterexample). -/
theorem envelopes_valid_core_amended :
    (∀ (S : Type) (apiKey : String) (targetIds : List Int) (store : FFStore S)
        (now : Int) (resp : FetchResponse S),
      validEnvelope (fetchStats apiKey targetIds store now resp).1) ∧
    (∀ (U : Type) (apiKey : String) (targetId : Int)
        (responses : Nat → UserResp U) (cfg : RetryConfig),
      validEnvelope (fetchUserBasic apiKey targetId responses cfg)) ∧
    (∀ (T : Type) (cfg : HttpWrapperCfg T)
        (runOut : Nat → Except String (DataOrError T)) (times : Nat → Int)
        (now0 : Int) (st0 : WrapSt T),
      (∀ k r, runOut k = Except.ok r → validEnvelope r) →
      ∀ r, (httpWrapper cfg runOut times now0 st0).1 = Except.ok r →
        validEnvelope r) ∧
    (∀ (T E : Type) (m : Int) (cell : StorageCell T) (now : Int)
        (load : Except E (DataOrError T)),
      (∀ r, load = Except.ok r → validEnvelope r) →
      ∀ r, (Cache.getOrLoad m cell now load).1 = Except.ok r →
        validEnvelope r) ∧
    (∀ (U : Type) (apiKey : String) (targetIds : List Int)
        (responses : Int → Nat → UserResp U) (cfg : RetryConfig),
      (fetchMultipleUsersBasic apiKey targetIds responses cfg).data ≠
        none) := by
  refine ⟨?_, ?_, ?_, ?_, ?_⟩
  · intro S apiKey targetIds store now resp
    by_cases h1 : jsTrim apiKey = ""
    · simp [fetchStats, h1, validEnvelope]
    · by_cases h2 : targetIds = []
      · simp [fetchStats, h1, h2, validEnvelope]
      · simp only [fetchStats, h1, h2, if_false]
        cases hg : getCachedData targetIds store now with
        | mk c store1 =>
          cases c with
          | some cached => simp [validEnvelope]
          | none => cases resp <;> simp [validEnvelope]
  · intro U apiKey targetId responses cfg
    by_cases h1 : jsTrim apiKey = ""
    · simp [fetchUserBasic, h1, validEnvelope]
    · by_cases h2 : targetId = 0
      · simp [fetchUserBasic, h1, h2, validEnvelope]
      · simp only [fetchUserBasic, h1, h2, if_false]
        exact fetchUserBasicLoop_valid cfg responses _ _ _ _
  · intro T cfg runOut times now0 st0 hrun r h
    have hthunk : ∀ s r',
        (limiterRunCounted cfg runOut times s).1 = Except.ok r' →
        validEnvelope r' := by
      intro s r' h'
      simp only [limiterRunCounted, httpThunk] at h'
      by_cases hc : cfg.hasCache = true
      · simp only [hc, if_true] at h'
        cases hget : Cache.get cfg.maxStalenessMs s.cell
            (times s.limiterCalls) with
        | some v =>
          simp only [hget] at h'
          have h'' : (⟨some v, none⟩ : DataOrError T) = r' := by simpa using h'
          rw [← h'']
          exact Or.inl ⟨by simp, rfl⟩
        | none =>
          simp only [hget] at h'
          exact httpRunStep_ok_valid cfg runOut hrun _ _ r' h'
      · simp only [hc, if_false] at h'
        exact httpRunStep_ok_valid cfg runOut hrun _ _ r' h'
    simp only [httpWrapper] at h
    by_cases hc : cfg.hasCache = true
    · rw [hc] at h
      simp only [if_true] at h
      cases hget : Cache.get cfg.maxStalenessMs st0.cell now0 with
      | some v =>
        simp only [hget] at h
        have h'' : (⟨some v, none⟩ : DataOrError T) = r := by simpa using h
        rw [← h'']
        exact Or.inl ⟨by simp, rfl⟩
      | none =>
        simp only [hget] at h
        exact withRetryS_ok_valid _ _ _ hthunk _ _ r h
    · simp only [hc, if_false] at h
      exact withRetryS_ok_valid _ _ _ hthunk _ _ r h
  · intro T E m cell now load hload r h
    simp only [Cache.getOrLoad] at h
    cases hget : Cache.get m cell now with
    | some v =>
      simp only [hget] at h
      have h'' : (⟨some v, none⟩ : DataOrError T) = r := by simpa using h
      rw [← h'']
      exact Or.inl ⟨by simp, rfl⟩
    | none =>
      simp only [hget] at h
      cases hl : load with
      | error e => simp only [hl] at h; simp at h
      | ok r0 =>
        simp only [hl] at h
        cases hd : r0.data <;> simp only [hd] at h
        all_goals {
          have h'' : r0 = r := by simpa using h
          rw [← h'']
          exact hload r0 hl }
  · intro U apiKey targetIds responses cfg
    simp only [fetchMultipleUsersBasic]
    split <;> simp

/-- C8 counterexample: `fetchMultipleUsersBasic` with an empty API key and
one target returns an envelope with *both* fields non-null (`data` is the
empty array of successes, `error` the per-target failure), so the claimed
"exactly one of `data`/`error`" invariant fails on it. -/
theorem fetchMultipleUsersBasic_envelope_invalid :
    fetchMultipleUsersBasic (U := Nat) "" [1]
        (fun _ _ => UserResp.payload 0) ⟨3, 1000, 10000, 2⟩ =
      ⟨some [], some "User 1: API key is required"⟩ ∧
    ¬ validEnvelope (fetchMultipleUsersBasic (U := Nat) "" [1]
        (fun _ _ => UserResp.payload 0) ⟨3, 1000, 10000, 2⟩) :=
  ⟨by decide, by decide⟩

theorem envelopes_valid_core_amended_witness :
    validEnvelope (fetchStats (S := Nat) "k" [1] (fun _ => FFCell.absent) 0
      (FetchResponse.jsonArray [5])).1 ∧
    (fetchMultipleUsersBasic (U := Nat) "" [1]
      (fun _ _ => UserResp.payload 0) ⟨3, 1000, 10000, 2⟩).data ≠ none :=
  ⟨envelopes_valid_core_amended.1 Nat "k" [1] (fun _ => FFCell.absent) 0
      (FetchResponse.jsonArray [5]),
   envelopes_valid_core_amended.2.2.2.2 Nat "" [1]
      (fun _ _ => UserResp.payload 0) ⟨3, 1000, 10000, 2⟩⟩

theorem getCachedData_miss_again {S : Type} (targetIds : List Int)
    (store : FFStore S) (now : Int)
    (h : (getCachedData targetIds store now).1 = none) :
    ∀ now2,
      (getCachedData targetIds ((getCachedData targetIds store now).2)
        now2).1 = none := by
  intro now2
  simp only [getCachedData] at h ⊢
  cases hcell : store (getCacheKey targetIds) with
  | absent => simp [hcell]
  | corrupt => simp [hcell]
  | entry d ts =>
    simp only [hcell] at h ⊢
    by_cases hexp : now - ts > cacheTtlMs
    · simp [hexp]
    · simp [hexp] at h

/-- C10: a valid call whose response body is not an array returns the
"Invalid response format" error envelope, performs the request, writes
nothing to the cache (the store is exactly what the pre-check left), and a
subsequent identical call misses the cache again and performs the network
request again. -/
theorem fetchStats_nonArray_no_cache_write {S : Type} (apiKey : String)
    (targetIds : List Int) (store : FFStore S) (now : Int)
    (h1 : jsTrim apiKey ≠ "") (h2 : targetIds ≠ [])
    (hmiss : (getCachedData targetIds store now).1 = none) :
    (fetchStats apiKey targetIds store now FetchResponse.jsonNonArray).1 =
      ⟨none, some "Invalid response format: expected an array"⟩ ∧
    (fetchStats apiKey targetIds store now FetchResponse.jsonNonArray).2.1 =
      (getCachedData targetIds store now).2 ∧
    (fetchStats apiKey targetIds store now FetchResponse.jsonNonArray).2.2 =
      true ∧
    (∀ (now2 : Int) (resp2 : FetchResponse S),
      (fetchStats apiKey targetIds
        (fetchStats apiKey targetIds store now
          FetchResponse.jsonNonArray).2.1 now2 resp2).2.2 = true) := by
  have hmiss2 := getCachedData_miss_again targetIds store now hmiss
  rcases hg : getCachedData targetIds store now with ⟨c, store1⟩
  rw [hg] at hmiss hmiss2
  dsimp only at hmiss hmiss2
  subst hmiss
  have hout : fetchStats apiKey targetIds store now
      FetchResponse.jsonNonArray =
      (⟨none, some "Invalid response format: expected an array"⟩,
        store1, true) := by
    simp only [fetchStats, if_neg h1, if_neg h2, hg]
  refine ⟨by rw [hout], by rw [hout], by rw [hout], ?_⟩
  intro now2 resp2
  rw [hout]
  have hm2 := hmiss2 now2
  rcases hg2 : getCachedData targetIds store1 now2 with ⟨c2, store2⟩
  rw [hg2] at hm2
  dsimp only at hm2
  subst hm2
  cases resp2 <;> simp [fetchStats, if_neg h1, if_neg h2, hg2]

theorem fetchStats_nonArray_no_cache_write_witness :
    (fetchStats (S := Nat) "k" [1] (fun _ => FFCell.absent) 0
        FetchResponse.jsonNonArray).1 =
      ⟨none, some "Invalid response format: expected an array"⟩ ∧
    (fetchStats (S := Nat) "k" [1] (fun _ => FFCell.absent) 0
        FetchResponse.jsonNonArray).2.2 = true ∧
    (fetchStats (S := Nat) "k" [1]
        (fetchStats (S := Nat) "k" [1] (fun _ => FFCell.absent) 0
          FetchResponse.jsonNonArray).2.1 5
        (FetchResponse.jsonArray [7])).2.2 = true := by
  have h := fetchStats_nonArray_no_cache_write (S := Nat) "k" [1]
    (fun _ => FFCell.absent) 0 (by decide) (by decide) (by decide)
  exact ⟨h.1, h.2.2.1, h.2.2.2 5 (FetchResponse.jsonArray [7])⟩

theorem startsOf_append (a b : List RLEvent) :
    startsOf (a ++ b) = startsOf a ++ startsOf b :=
  List.filterMap_append a b _

theorem finishesOf_append (a b : List RLEvent) :
    finishesOf (a ++ b) = finishesOf a ++ finishesOf b :=
  List.filterMap_append a b _

theorem submitsOf_append (a b : List RLEvent) :
    submitsOf (a ++ b) = submitsOf a ++ submitsOf b :=
  List.filterMap_append a b _

theorem startsOf_submit (j t : Nat) : startsOf [RLEvent.submit j t] = [] :=
  rfl

theorem startsOf_start (j t : Nat) :
    startsOf [RLEvent.start j t] = [(j, t)] := rfl

theorem startsOf_finish (j t : Nat) : startsOf [RLEvent.finish j t] = [] :=
  rfl

theorem finishesOf_submit (j t : Nat) :
    finishesOf [RLEvent.submit j t] = [] := rfl

theorem finishesOf_start (j t : Nat) :
    finishesOf [RLEvent.start j t] = [] := rfl

theorem finishesOf_finish (j t : Nat) :
    finishesOf [RLEvent.finish j t] = [(j, t)] := rfl

theorem submitsOf_submit (j t : Nat) :
    submitsOf [RLEvent.submit j t] = [(j, t)] := rfl

theorem submitsOf_start (j t : Nat) :
    submitsOf [RLEvent.start j t] = [] := rfl

theorem submitsOf_finish (j t : Nat) :
    submitsOf [RLEvent.finish j t] = [] := rfl

theorem reachable_step_eq {c : RLCfg} {s s' s2 : RLState}
    (h : Reachable c s) (hs : RLStep c s s') (he : s' = s2) :
    Reachable c s2 :=
  he ▸ Reachable.step h hs

theorem rlStEx_reachable : Reachable rlCfgEx rlStEx := by
  have h1 : Reachable rlCfgEx
      ⟨0, [], 0, true, [(0, 100)], [], 1,
        [RLEvent.submit 0 0, RLEvent.start 0 0]⟩ :=
    reachable_step_eq Reachable.init (RLStep.submit rlInit 0 (by decide))
      (by decide)
  have h2 : Reachable rlCfgEx
      ⟨0, [1], 0, true, [(0, 100)], [], 2,
        [RLEvent.submit 0 0, RLEvent.start 0 0, RLEvent.submit 1 0]⟩ :=
    reachable_step_eq h1 (RLStep.submit _ 0 (by decide)) (by decide)
  have h3 : Reachable rlCfgEx
      ⟨100, [1], 350, false, [], [350], 2,
        [RLEvent.submit 0 0, RLEvent.start 0 0, RLEvent.submit 1 0,
         RLEvent.finish 0 100]⟩ :=
    reachable_step_eq h2 (RLStep.settle _ 0 100 (by decide) (by decide))
      (by decide)
  exact reachable_step_eq h3 (RLStep.fireTimer _ 350 (by decide) (by decide))
    (by decide)

theorem RLInv.fin_le_starts {c : RLCfg} {s : RLState} (h : RLInv c s) :
    (finishesOf s.trace).length ≤ (startsOf s.trace).length := by
  have hc := congrArg List.length h.fin_eq
  rw [List.length_map, List.length_take] at hc
  omega

theorem rlInv_processQueue {c : RLCfg} {s : RLState} (h : RLInv c s) :
    RLInv c (processQueue c s) := by
  have hffle := h.fin_le_starts
  unfold processQueue
  cases hq : s.queue with
  | nil => exact h
  | cons j rest =>
    have hsq := h.starts_queue
    rw [hq] at hsq
    cases hp : s.isProcessing with
    | true =>
      simp only [if_true]
      exact h
    | false =>
      simp only [Bool.false_eq_true, if_false]
      by_cases hcd : s.now < s.cooldownUntil
      · simp only [hcd, if_true]
        exact ⟨h.subs_eq, hsq, h.fin_eq, h.running_eq, h.run_le,
          by rw [← hp]; exact h.proc_iff, h.cool_eq, h.gaps⟩
      · simp only [hcd, if_false]
        have hfe : (finishesOf s.trace).length =
            (startsOf s.trace).length := by
          have hpi := h.proc_iff
          rw [hp] at hpi
          have hnlt : ¬ ((finishesOf s.trace).length <
              (startsOf s.trace).length) := by
            intro hlt
            rw [decide_eq_true hlt] at hpi
            cases hpi
          omega
        refine ⟨?_, ?_, ?_, ?_, ?_, ?_, ?_, ?_⟩
        · simp only [submitsOf_append, submitsOf_start, List.append_nil]
          exact h.subs_eq
        · simp only [startsOf_append, startsOf_start, List.map_append]
          rw [List.append_assoc]
          simpa using hsq
        · simp only [finishesOf_append, finishesOf_start, List.append_nil,
            startsOf_append, startsOf_start]
          rw [List.take_append_of_le_length hffle]
          exact h.fin_eq
        · simp only [finishesOf_append, finishesOf_start, List.append_nil,
            startsOf_append, startsOf_start]
          rw [h.running_eq, hfe, List.drop_length, List.map_nil,
            List.nil_append, List.drop_left]
          simp
        · simp only [finishesOf_append, finishesOf_start, List.append_nil,
            startsOf_append, startsOf_start, List.length_append,
            List.length_singleton]
          omega
        · simp only [finishesOf_append, finishesOf_start, List.append_nil,
            startsOf_append, startsOf_start, List.length_append,
            List.length_singleton]
          rw [eq_comm, decide_eq_true_eq]
          omega
        · simp only [finishesOf_append, finishesOf_start, List.append_nil]
          exact h.cool_eq
        · simp only [startsOf_append, startsOf_start]
          rw [List.chain'_append]
          refine ⟨h.gaps, List.chain'_singleton _, ?_⟩
          intro p hp' y hy
          simp only [List.head?_cons, Option.mem_def, Option.some.injEq] at hy
          subst hy
          rw [Option.mem_def] at hp'
          have hcu : s.cooldownUntil ≤ s.now := Nat.le_of_not_lt hcd
          have hFF : finishesOf s.trace = (startsOf s.trace).map
              (fun p => (p.1, p.2 + thunkDelay c p.1)) := by
            rw [h.fin_eq, hfe, List.take_length]
          have hlast : (finishesOf s.trace).getLast? =
              some (p.1, p.2 + thunkDelay c p.1) := by
            rw [hFF, List.getLast?_map, hp']
            rfl
          have hce : s.cooldownUntil =
              p.2 + thunkDelay c p.1 + c.cooldownMs := by
            rw [h.cool_eq, hlast]
          unfold gapRel
          omega

theorem rlInv_step {c : RLCfg} {s s' : RLState} (h : RLInv c s)
    (hs : RLStep c s s') : RLInv c s' := by
  cases hs with
  | submit t ht =>
    apply rlInv_processQueue
    refine ⟨?_, ?_, ?_, ?_, ?_, ?_, ?_, ?_⟩
    · simp only [submitsOf_append, submitsOf_submit, List.map_append]
      rw [h.subs_eq]
      simp [List.range_succ]
    · simp only [startsOf_append, startsOf_submit, List.append_nil]
      rw [← List.append_assoc, h.starts_queue]
      simp [List.range_succ]
    · simp only [finishesOf_append, finishesOf_submit, startsOf_append,
        startsOf_submit, List.append_nil]
      exact h.fin_eq
    · simp only [finishesOf_append, finishesOf_submit, startsOf_append,
        startsOf_submit, List.append_nil]
      exact h.running_eq
    · simp only [finishesOf_append, finishesOf_submit, startsOf_append,
        startsOf_submit, List.append_nil]
      exact h.run_le
    · simp only [finishesOf_append, finishesOf_submit, startsOf_append,
        startsOf_submit, List.append_nil]
      exact h.proc_iff
    · simp only [finishesOf_append, finishesOf_submit, List.append_nil]
      exact h.cool_eq
    · simp only [startsOf_append, startsOf_submit, List.append_nil]
      exact h.gaps
  | fireTimer tf hmem ht =>
    apply rlInv_processQueue
    exact ⟨h.subs_eq, h.starts_queue, h.fin_eq, h.running_eq, h.run_le,
      h.proc_iff, h.cool_eq, h.gaps⟩
  | settle j tf hmem ht =>
    have hffle := h.fin_le_starts
    have hne : s.running ≠ [] := by
      intro he
      rw [he] at hmem
      cases hmem
    have hlt : (finishesOf s.trace).length < (startsOf s.trace).length := by
      by_contra hge
      apply hne
      rw [h.running_eq, List.drop_eq_nil_of_le (by omega), List.map_nil]
    have hlen : (startsOf s.trace).length =
        (finishesOf s.trace).length + 1 := by
      have := h.run_le
      omega
    have hdrop1 : ((startsOf s.trace).drop
        (finishesOf s.trace).length).length = 1 := by
      rw [List.length_drop]
      omega
    obtain ⟨p, hp⟩ := List.length_eq_one.mp hdrop1
    have hrun1 : s.running = [(p.1, p.2 + thunkDelay c p.1)] := by
      rw [h.running_eq, hp]
      rfl
    rw [hrun1] at hmem
    simp only [List.mem_singleton, Prod.mk.injEq] at hmem
    obtain ⟨hj, htf⟩ := hmem
    have hSSsplit : startsOf s.trace =
        (startsOf s.trace).take (finishesOf s.trace).length ++ [p] := by
      conv_lhs => rw [← List.take_append_drop (finishesOf s.trace).length
        (startsOf s.trace)]
      rw [hp]
    refine ⟨?_, ?_, ?_, ?_, ?_, ?_, ?_, ?_⟩
    · simp only [submitsOf_append, submitsOf_finish, List.append_nil]
      exact h.subs_eq
    · simp only [startsOf_append, startsOf_finish, List.append_nil]
      exact h.starts_queue
    · simp only [finishesOf_append, finishesOf_finish, startsOf_append,
        startsOf_finish, List.append_nil, List.length_append,
        List.length_singleton]
      rw [List.take_of_length_le (by omega)]
      conv_lhs => rw [h.fin_eq]
      conv_rhs => rw [hSSsplit]
      rw [List.map_append]
      congr 1
      simp [hj, htf]
    · simp only [finishesOf_append, finishesOf_finish, startsOf_append,
        startsOf_finish, List.append_nil, List.length_append,
        List.length_singleton]
      rw [hrun1, List.drop_eq_nil_of_le (by omega), List.map_nil]
      rw [hj, htf]
      simp [List.erase_cons]
    · simp only [finishesOf_append, finishesOf_finish, startsOf_append,
        startsOf_finish, List.append_nil, List.length_append,
        List.length_singleton]
      omega
    · simp only [finishesOf_append, finishesOf_finish, startsOf_append,
        startsOf_finish, List.append_nil, List.length_append,
        List.length_singleton]
      rw [eq_comm, decide_eq_false_iff_not]
      omega
    · simp only [finishesOf_append, finishesOf_finish]
      rw [List.getLast?_concat]
    · simp only [startsOf_append, startsOf_finish, List.append_nil]
      exact h.gaps

theorem rlInv_reachable {c : RLCfg} {s : RLState} (h : Reachable c s) :
    RLInv c s := by
  induction h with
  | init =>
    refine ⟨rfl, rfl, rfl, rfl, by decide, rfl, rfl, ?_⟩
    simp [startsOf, rlInit]
  | step _ hs ih => exact rlInv_step ih hs

theorem getD_eq_getElem_of_lt {α : Type} (l : List α) (d : α) {i : Nat}
    (h : i < l.length) : l.getD i d = l[i] := by
  simp [List.getD_eq_getElem?_getD, List.getElem?_eq_getElem h]

/-- C3: strict FIFO — on any reachable state of any limiter instance, the
jobs that have started executing are exactly the first submitted jobs, in
submission order (submissions are numbered `0, 1, 2, …` in order, and the
start trace is `0, 1, …, k-1`). -/
theorem rateLimiter_fifo {c : RLCfg} {s : RLState} (h : Reachable c s) :
    (startsOf s.trace).map Prod.fst =
      List.range (startsOf s.trace).length ∧
    (submitsOf s.trace).map Prod.fst = List.range s.nextJob := by
  have inv := rlInv_reachable h
  refine ⟨?_, inv.subs_eq⟩
  have hq := inv.starts_queue
  have hlen : (startsOf s.trace).length + s.queue.length = s.nextJob := by
    have hc := congrArg List.length hq
    simpa [List.length_append, List.length_map, List.length_range] using hc
  have htk : (startsOf s.trace).map Prod.fst =
      (List.range s.nextJob).take
        ((startsOf s.trace).map Prod.fst).length := by
    rw [← hq, List.take_left]
  rw [htk, List.take_range, List.length_map]
  congr 1
  omega

theorem rateLimiter_fifo_witness :
    (startsOf rlStEx.trace).map Prod.fst =
      List.range (startsOf rlStEx.trace).length ∧
    (submitsOf rlStEx.trace).map Prod.fst = List.range rlStEx.nextJob :=
  rateLimiter_fifo rlStEx_reachable

/-- C2: on any reachable state, a ticket that starts after an earlier
ticket finished starts at least `cooldownMs` after that settlement: the
`i`-th execution's settlement plus the cooldown bounds the `(i+1)`-st
execution's start, and any two execution starts are at least `cooldownMs`
apart. -/
theorem rateLimiter_cooldown_gap {c : RLCfg} {s : RLState}
    (h : Reachable c s) :
    (∀ i, i + 1 < (startsOf s.trace).length →
      i < (finishesOf s.trace).length ∧
      ((finishesOf s.trace).getD i (0, 0)).2 + c.cooldownMs ≤
        ((startsOf s.trace).getD (i + 1) (0, 0)).2) ∧
    (∀ i k, i < k → k < (startsOf s.trace).length →
      ((startsOf s.trace).getD i (0, 0)).2 + c.cooldownMs ≤
        ((startsOf s.trace).getD k (0, 0)).2) := by
  have inv := rlInv_reachable h
  haveI : IsTrans (Nat × Nat) (gapRel c) :=
    ⟨fun a b d hab hbd => by unfold gapRel at *; omega⟩
  have hpw := List.chain'_iff_pairwise.mp inv.gaps
  have hget := List.pairwise_iff_getElem.mp hpw
  constructor
  · intro i hi
    have hif : i < (finishesOf s.trace).length := by
      have := inv.run_le
      omega
    refine ⟨hif, ?_⟩
    have hg := hget i (i + 1) (by omega) hi (by omega)
    unfold gapRel at hg
    have hFFi : (finishesOf s.trace).getD i (0, 0) =
        ((startsOf s.trace)[i].1,
         (startsOf s.trace)[i].2 +
           thunkDelay c ((startsOf s.trace)[i].1)) := by
      rw [getD_eq_getElem_of_lt _ _ hif]
      rw [List.getElem_of_eq inv.fin_eq hif]
      simp
    rw [hFFi, getD_eq_getElem_of_lt _ _ hi]
    omega
  · intro i k hik hk
    have hg := hget i k (by omega) hk hik
    unfold gapRel at hg
    rw [getD_eq_getElem_of_lt _ _ (by omega : i < (startsOf s.trace).length),
      getD_eq_getElem_of_lt _ _ hk]
    omega

theorem rateLimiter_cooldown_gap_witness :
    (0 < (finishesOf rlStEx.trace).length ∧
      ((finishesOf rlStEx.trace).getD 0 (0, 0)).2 + rlCfgEx.cooldownMs ≤
        ((startsOf rlStEx.trace).getD 1 (0, 0)).2) ∧
    ((startsOf rlStEx.trace).getD 0 (0, 0)).2 + rlCfgEx.cooldownMs ≤
      ((startsOf rlStEx.trace).getD 1 (0, 0)).2 :=
  ⟨(rateLimiter_cooldown_gap rlStEx_reachable).1 0 (by decide),
   (rateLimiter_cooldown_gap rlStEx_reachable).2 0 1 (by decide) (by decide)⟩

/-- C1 (amended): on any reachable state of any limiter instance, the
execution intervals of two distinct tickets measured to the settlement of
the limiter's thunk (`[start, start + thunkDelay)`) never overlap — one
thunk settles before the other's wrapped function is invoked; and on an
instance with no default timeout and no per-call timeouts the same holds
for the intervals measured to the settlement of the promise the wrapped
function itself returned (`[start, start + dur)`).  With a configured
timeout the own-promise intervals *can* overlap (see the counterexample):
a timed-out call's own promise may still be pending when the next ticket
executes. -/
theorem rateLimiter_exec_exclusive {c : RLCfg} {s : RLState}
    (h : Reachable c s) (i k : Nat)
    (hi : i < (startsOf s.trace).length)
    (hk : k < (startsOf s.trace).length) (hne : i ≠ k) :
    (((startsOf s.trace).getD i (0, 0)).2 +
        thunkDelay c (((startsOf s.trace).getD i (0, 0)).1) ≤
      ((startsOf s.trace).getD k (0, 0)).2 ∨
     ((startsOf s.trace).getD k (0, 0)).2 +
        thunkDelay c (((startsOf s.trace).getD k (0, 0)).1) ≤
      ((startsOf s.trace).getD i (0, 0)).2) ∧
    ((c.defaultTimeoutMs = none ∧ ∀ j, c.callTimeout j = none) →
      (((startsOf s.trace).getD i (0, 0)).2 +
          c.dur (((startsOf s.trace).getD i (0, 0)).1) ≤
        ((startsOf s.trace).getD k (0, 0)).2 ∨
       ((startsOf s.trace).getD k (0, 0)).2 +
          c.dur (((startsOf s.trace).getD k (0, 0)).1) ≤
        ((startsOf s.trace).getD i (0, 0)).2)) := by
  have inv := rlInv_reachable h
  haveI : IsTrans (Nat × Nat) (gapRel c) :=
    ⟨fun a b d hab hbd => by unfold gapRel at *; omega⟩
  have hpw := List.chain'_iff_pairwise.mp inv.gaps
  have hget := List.pairwise_iff_getElem.mp hpw
  have hmain :
      ((startsOf s.trace).getD i (0, 0)).2 +
          thunkDelay c (((startsOf s.trace).getD i (0, 0)).1) ≤
        ((startsOf s.trace).getD k (0, 0)).2 ∨
      ((startsOf s.trace).getD k (0, 0)).2 +
          thunkDelay c (((startsOf s.trace).getD k (0, 0)).1) ≤
        ((startsOf s.trace).getD i (0, 0)).2 := by
    rw [getD_eq_getElem_of_lt _ _ hi, getD_eq_getElem_of_lt _ _ hk]
    obtain hik | hik := Nat.lt_or_ge i k
    · left
      have hg := hget i k hi hk hik
      unfold gapRel at hg
      omega
    · right
      have hik' : k < i := by omega
      have hg := hget k i hk hi hik'
      unfold gapRel at hg
      omega
  refine ⟨hmain, fun hnt => ?_⟩
  have hdelay : ∀ j, thunkDelay c j = c.dur j := by
    intro j
    unfold thunkDelay effTimeout
    rw [hnt.2 j, hnt.1]
  simpa only [hdelay] using hmain

theorem rateLimiter_exec_exclusive_witness :
    (((startsOf rlStEx.trace).getD 0 (0, 0)).2 +
        thunkDelay rlCfgEx (((startsOf rlStEx.trace).getD 0 (0, 0)).1) ≤
      ((startsOf rlStEx.trace).getD 1 (0, 0)).2 ∨
     ((startsOf rlStEx.trace).getD 1 (0, 0)).2 +
        thunkDelay rlCfgEx (((startsOf rlStEx.trace).getD 1 (0, 0)).1) ≤
      ((startsOf rlStEx.trace).getD 0 (0, 0)).2) ∧
    ((rlCfgEx.defaultTimeoutMs = none ∧ ∀ j, rlCfgEx.callTimeout j = none) →
      (((startsOf rlStEx.trace).getD 0 (0, 0)).2 +
          rlCfgEx.dur (((startsOf rlStEx.trace).getD 0 (0, 0)).1) ≤
        ((startsOf rlStEx.trace).getD 1 (0, 0)).2 ∨
       ((startsOf rlStEx.trace).getD 1 (0, 0)).2 +
          rlCfgEx.dur (((startsOf rlStEx.trace).getD 1 (0, 0)).1) ≤
        ((startsOf rlStEx.trace).getD 0 (0, 0)).2)) :=
  rateLimiter_exec_exclusive rlStEx_reachable 0 1 (by decide) (by decide)
    (by decide)

/-- C1 counterexample: with a configured `timeoutMs` the claim as stated —
intervals measured to the settlement of the wrapped function's *own*
promise never overlap — is false: with cooldown 250, timeout 100, job 0
taking 1000 and job 1 taking 50, both submitted at t=0, job 0 runs over
`[0, 1000)` while job 1 is invoked at t=350. -/
theorem rateLimiter_own_intervals_can_overlap :
    ¬ ownIntervalsNeverOverlap := by
  intro hclaim
  have hc := hclaim rlCfgEx rlStEx rlStEx_reachable 0 1 (by decide)
    (by decide) (by decide)
  revert hc
  decide
